import Mathlib

/-!
Verification of the Goal-Gap Matching Engine of the Netellus tool.

The engine is the `recommendations` computation in `src/App.tsx` (lines
104-220), a pure function of the record database, the selected industry and
the optional user goal.  This file gives a shallow embedding of that
computation and proves the spec's testable properties about it.

Modelling decisions:
* JavaScript numbers are modelled by `ℚ`; every numeric value that the engine
  manipulates is a finite decimal, exactly representable in `ℚ`.
* `parseFloat` is modelled by `jsParseFloat` below: leading whitespace is
  skipped, an optional sign, a decimal mantissa and an optional exponent are
  read, and the longest valid numeric prefix is converted; `Option.none`
  stands for `NaN` (returned when no digit is read).
* A database row (`DatabaseRow` in `src/types`) is modelled by `Record`.
  The CSV loader in `src/services/dataService.ts` allocates a fresh object
  per row, so JavaScript reference identity on rows is modelled by the
  `rid` field (the row's index); `r !== primary` and `combo.includes(cand)`
  in the combo branch compare by `rid`.
* `Array.prototype.sort` (stable since ES2019) is modelled by
  `List.insertionSort`, which is stable and sorts by the same comparator
  order.
-/

namespace Netellus

/-! ### Character-level helpers for the `parseFloat` model -/

theorem toNat_d0 : Char.toNat '0' = 48 := by decide

theorem toNat_d1 : Char.toNat '1' = 49 := by decide

theorem toNat_d2 : Char.toNat '2' = 50 := by decide

theorem toNat_d3 : Char.toNat '3' = 51 := by decide

theorem toNat_d4 : Char.toNat '4' = 52 := by decide

theorem toNat_d5 : Char.toNat '5' = 53 := by decide

theorem toNat_d6 : Char.toNat '6' = 54 := by decide

theorem toNat_d7 : Char.toNat '7' = 55 := by decide

theorem toNat_d8 : Char.toNat '8' = 56 := by decide

theorem toNat_d9 : Char.toNat '9' = 57 := by decide

/-- Whitespace characters skipped by `parseFloat` and removed by `trim`. -/
def jsWs (c : Char) : Bool := c = ' ' || c = '\t' || c = '\n' || c = '\r'

/-- Reads a maximal run of decimal digits; returns the accumulated value,
the number of digits read and the remaining characters. -/
def parseDigits : List Char → Nat → Nat → Nat × Nat × List Char
  | [], acc, cnt => (acc, cnt, [])
  | c :: cs, acc, cnt =>
    if c.isDigit then parseDigits cs (acc * 10 + (c.toNat - 48)) (cnt + 1)
    else (acc, cnt, c :: cs)

/-- Reads an optional leading sign. -/
def parseSign : List Char → Int × List Char
  | '+' :: cs => (1, cs)
  | '-' :: cs => (-1, cs)
  | cs => (1, cs)

/-- Reads an optional exponent part (ignored when no digit follows the
exponent marker, as `parseFloat` does). -/
def parseExponent (cs : List Char) : Int :=
  match cs with
  | 'e' :: t | 'E' :: t =>
    let st := parseSign t
    let d := parseDigits st.2 0 0
    if d.2.1 = 0 then 0 else st.1 * (d.1 : Int)
  | _ => 0

/-- Model of JavaScript `parseFloat` on finite decimal input: skip leading
whitespace, read an optional sign, a decimal mantissa and an optional
exponent; `Option.none` models the `NaN` result (no digit present). -/
def jsParseFloat (s : String) : Option ℚ :=
  let cs := s.data.dropWhile jsWs
  let sg := parseSign cs
  let ip := parseDigits sg.2 0 0
  let fp :=
    match ip.2.2 with
    | '.' :: t => parseDigits t 0 0
    | cs' => (0, 0, cs')
  if ip.2.1 = 0 ∧ fp.2.1 = 0 then none
  else
    let mant : ℚ := (ip.1 : ℚ) + (fp.1 : ℚ) / (10 : ℚ) ^ fp.2.1
    some ((sg.1 : ℚ) * mant * (10 : ℚ) ^ parseExponent fp.2.2)

/-- Model of the idiom `parseFloat(x) || 0`: `NaN` (and `0` itself) collapse
to `0`. -/
def jsNum (s : String) : ℚ := (jsParseFloat s).getD 0

/-- Model of `s.replace(/,/g, '')`: every comma is removed. -/
def stripCommas (s : String) : String := ⟨s.data.filter (fun c => c ≠ ',')⟩

/-- Model of `String.prototype.trim`. -/
def jsTrim (s : String) : String :=
  ⟨((s.data.dropWhile jsWs).reverse.dropWhile jsWs).reverse⟩

/-- Model of `s.replace('%', '')`: only the first percent sign is removed. -/
def removeFirstPercent : List Char → List Char
  | [] => []
  | c :: cs => if c = '%' then cs else c :: removeFirstPercent cs

/-! ### Data model -/

/-- Goal path (`GoalPath` in `src/types`). -/
inductive GoalPath
  | carbon
  | energy
  deriving DecidableEq, Repr

/-- Target interpretation of the goal. -/
inductive TargetType
  | percentage
  | absolute
  deriving DecidableEq, Repr

/-- User goal (`UserGoal` in `src/types`): the values are already parsed
numbers (`handleConfirmGoal` stores numbers in the state). -/
structure UserGoal where
  path : GoalPath
  currentValue : ℚ
  targetType : TargetType
  targetValue : ℚ
  deriving DecidableEq, Repr

/-- One database row (`DatabaseRow`), with the fields the engine reads.
`rid` models JavaScript object identity: the CSV loader allocates a fresh
object per row.  The string fields carry the raw display-formatted text:
`industry` is the row's 案例公司產業別 column, `systemName` is 系統名稱,
`measureType` is 措施類型, `carbonStr` is c_碳減量中位數, `energyStr` is
c_節能潛力中位數 and `shareStr` is a_系統佔比(同產業). -/
structure Record where
  rid : Nat
  industry : String
  systemName : String
  measureType : String
  carbonStr : String
  energyStr : String
  shareStr : String
  deriving DecidableEq, Repr

instance : Inhabited Record := ⟨⟨0, "", "", "", "", "", ""⟩⟩

/-- Kind of a recommendation result (the `type` field of the object the
`recommendations` memo returns). -/
inductive RKind
  | none
  | no_goal
  | single
  | combo
  deriving DecidableEq, Repr

/-- The object returned by the `recommendations` memo.  `totalImpact` is
present only on the combo branch. -/
structure RecResult where
  type : RKind
  items : List Record
  targetGap : ℚ
  totalImpact : Option ℚ
  deriving DecidableEq, Repr

/-! ### The engine, translated from `src/App.tsx` -/

/-- `parseMetric` (App.tsx lines 105-109): falsy input gives `0`, otherwise
commas are stripped, the string is trimmed and parsed, and `NaN` gives `0`. -/
def parseMetric (val : String) : ℚ :=
  if val = "" then 0 else jsNum (jsTrim (stripCommas val))

/-- `getValue` (App.tsx lines 127-133): the impact value of a row for the
active path.  Note the raw `parseFloat` with no comma stripping, and the
MWh to kWh scaling on the energy path. -/
def getValue (r : Record) (path : GoalPath) : ℚ :=
  match path with
  | GoalPath.carbon => jsNum r.carbonStr
  | GoalPath.energy => jsNum r.energyStr * 1000

/-- `getSystemShare` (App.tsx lines 135-138): first percent sign removed,
empty (or missing) field replaced by "0", then `parseFloat(...) || 0`. -/
def getSystemShare (r : Record) : ℚ :=
  let t : String := ⟨removeFirstPercent r.shareStr.data⟩
  let valStr := if t = "" then "0" else t
  jsNum valStr

/-- `industryStats` (App.tsx lines 81-84): all rows of the selected
industry, or the empty list while the industry input is not validated. -/
def industryStats (isValidIndustry : Bool) (db : List Record)
    (industrySearch : String) : List Record :=
  if isValidIndustry then db.filter (fun r => r.industry == industrySearch) else []

/-- The active path: `goal.path` when a goal is set, carbon otherwise
(App.tsx lines 140-154). -/
def activePath : Option UserGoal → GoalPath
  | Option.none => GoalPath.carbon
  | some g => g.path

/-- The target gap of App.tsx lines 140-154: `0` with no goal,
`current * (target / 100)` for a percentage target, `target` for an
absolute target. -/
def gapFormula : Option UserGoal → ℚ
  | Option.none => 0
  | some g =>
    if g.targetType = TargetType.percentage then
      g.currentValue * (g.targetValue / 100)
    else g.targetValue

/-- The validity filter of App.tsx line 157: truthy `措施類型` that is not
the literal "0", and positive impact for the active path. -/
def validAction (path : GoalPath) (r : Record) : Bool :=
  r.measureType != "" && r.measureType != "0" && decide (0 < getValue r path)

/-- `validActions` before sorting (App.tsx lines 156-157). -/
def validActionsOf (isValidIndustry : Bool) (db : List Record)
    (industrySearch : String) (path : GoalPath) : List Record :=
  (industryStats isValidIndustry db industrySearch).filter (validAction path)

/-- Comparator order of the no-goal sort (App.tsx lines 161-166): share
descending, ties broken by impact descending.  `noGoalRel a b` states that
`a` may precede `b`. -/
def noGoalRel (path : GoalPath) (a b : Record) : Prop :=
  getSystemShare b < getSystemShare a ∨
    (getSystemShare a = getSystemShare b ∧ getValue b path ≤ getValue a path)

instance (path : GoalPath) : DecidableRel (noGoalRel path) := fun a b =>
  inferInstanceAs (Decidable (_ ∨ _))

/-- Comparator order of the goal sort (App.tsx line 175): impact
descending. -/
def goalRel (path : GoalPath) (a b : Record) : Prop :=
  getValue b path ≤ getValue a path

instance (path : GoalPath) : DecidableRel (goalRel path) := fun a b =>
  inferInstanceAs (Decidable (_ ≤ _))

/-- Stable sort by the no-goal comparator. -/
def sortNoGoal (path : GoalPath) (l : List Record) : List Record :=
  List.insertionSort (noGoalRel path) l

/-- Stable sort by the goal comparator. -/
def sortGoal (path : GoalPath) (l : List Record) : List Record :=
  List.insertionSort (goalRel path) l

/-- First combo pass (App.tsx lines 199-205): walk the candidates in order,
stop once the accumulated impact reaches the gap, and append a candidate
only when its measure type is not yet present in the combo. -/
def comboPass1 (path : GoalPath) (targetGap : ℚ) :
    List Record → List Record → ℚ → List Record × ℚ
  | [], combo, sum => (combo, sum)
  | cand :: cs, combo, sum =>
    if targetGap ≤ sum then (combo, sum)
    else if combo.any (fun c => c.measureType == cand.measureType) then
      comboPass1 path targetGap cs combo sum
    else comboPass1 path targetGap cs (combo ++ [cand]) (sum + getValue cand path)

/-- Second combo pass (App.tsx lines 207-214): same walk without the
distinct-type restriction; `combo.includes(cand)` compares by object
identity, modelled by `rid`. -/
def comboPass2 (path : GoalPath) (targetGap : ℚ) :
    List Record → List Record → ℚ → List Record × ℚ
  | [], combo, sum => (combo, sum)
  | cand :: cs, combo, sum =>
    if targetGap ≤ sum then (combo, sum)
    else if combo.any (fun c => c.rid == cand.rid) then
      comboPass2 path targetGap cs combo sum
    else comboPass2 path targetGap cs (combo ++ [cand]) (sum + getValue cand path)

/-- The combo loop of App.tsx lines 193-215: candidates are the sorted
valid actions minus the primary (`r !== primaryAction`, an identity
comparison), the first pass runs always, the second only when the first
left the sum below the gap. -/
def comboRun (path : GoalPath) (targetGap : ℚ) (sorted : List Record)
    (primary : Record) : List Record × ℚ :=
  let candidates := sorted.filter (fun r => r.rid != primary.rid)
  let p1 := comboPass1 path targetGap candidates [primary] (getValue primary path)
  if p1.2 < targetGap then comboPass2 path targetGap candidates p1.1 p1.2 else p1

/-- The combo result object (App.tsx line 217). -/
def comboResult (path : GoalPath) (targetGap : ℚ) (sorted : List Record)
    (primary : Record) : RecResult :=
  ⟨RKind.combo, (comboRun path targetGap sorted primary).1, targetGap,
    some (comboRun path targetGap sorted primary).2⟩

/-- The single result (App.tsx lines 182-191): the primary followed by up
to two later records of a different measure type. -/
def singleResult (path : GoalPath) (targetGap : ℚ) (sorted : List Record)
    (primary : Record) : RecResult :=
  ⟨RKind.single,
    primary :: (sorted.filter (fun r => r.measureType != primary.measureType)).take 2,
    targetGap, Option.none⟩

/-- The no-goal branch (App.tsx lines 159-172). -/
def recommendNoGoalBranch (path : GoalPath) (validActions : List Record) : RecResult :=
  ⟨RKind.no_goal, (sortNoGoal path validActions).take 5, 0, Option.none⟩

/-- The goal branch (App.tsx lines 173-218). -/
def recommendGoalBranch (path : GoalPath) (targetGap : ℚ)
    (validActions : List Record) : RecResult :=
  match sortGoal path validActions with
  | [] => ⟨RKind.none, [], targetGap, Option.none⟩
  | primary :: rest =>
    if targetGap ≤ getValue primary path then
      singleResult path targetGap (primary :: rest) primary
    else comboResult path targetGap (primary :: rest) primary

/-- The full `recommendations` computation (App.tsx lines 124-220).  Note
the early return of line 125: when no row of the selected industry exists
the result carries `targetGap = 0` even when a goal is set. -/
def recommend (isValidIndustry : Bool) (db : List Record)
    (industrySearch : String) (goal : Option UserGoal) : RecResult :=
  let stats := industryStats isValidIndustry db industrySearch
  if stats.isEmpty then ⟨RKind.none, [], 0, Option.none⟩
  else
    match goal with
    | Option.none =>
      recommendNoGoalBranch GoalPath.carbon
        (validActionsOf isValidIndustry db industrySearch GoalPath.carbon)
    | some g =>
      recommendGoalBranch g.path (gapFormula (some g))
        (validActionsOf isValidIndustry db industrySearch g.path)

/-- State-passing form of the engine call.  The source never writes to a
row or to the input array: `industryStats` and the two `.filter` calls
build fresh arrays, and the only in-place operation, `.sort`, is applied
to those fresh arrays, so the database is returned unchanged. -/
def recommendWithState (isValidIndustry : Bool) (db : List Record)
    (industrySearch : String) (goal : Option UserGoal) : RecResult × List Record :=
  (recommend isValidIndustry db industrySearch goal, db)

/-- Sum of the impact values of a list of records. -/
def impactSum (path : GoalPath) (l : List Record) : ℚ :=
  (l.map (fun r => getValue r path)).sum

/-! ### Concrete inputs used in witnesses and counterexamples -/

/-- Test row: industry A, measure LED, carbon reduction 50, share 10%. -/
def wr1 : Record := ⟨1, "A", "s1", "LED", "50", "", "10%"⟩

/-- Test row: industry A, measure HVAC, carbon reduction 30, share 20%. -/
def wr2 : Record := ⟨2, "A", "s2", "HVAC", "30", "", "20%"⟩

/-- Test row whose measure type is the invalid placeholder "0". -/
def wrBad : Record := ⟨3, "A", "s3", "0", "50", "", "10%"⟩

/-- Test row whose numeric fields carry a thousands separator. -/
def wrComma : Record := ⟨4, "A", "s4", "LED", "1,234", "1,234", "1,234"⟩

/-- Absolute carbon goal of 100 tonnes (forces the combo branch on
`[wr1, wr2]`). -/
def wgAbs : UserGoal := ⟨GoalPath.carbon, 0, TargetType.absolute, 100⟩

/-- Absolute carbon goal of 40 tonnes (forces the single branch on
`[wr1, wr2]`). -/
def wgLow : UserGoal := ⟨GoalPath.carbon, 0, TargetType.absolute, 40⟩

/-- Percentage goal: baseline 1000, target 10 percent. -/
def wgPct : UserGoal := ⟨GoalPath.carbon, 1000, TargetType.percentage, 10⟩

/-! ### Basic properties of the filters -/

theorem validAction_iff (path : GoalPath) (r : Record) :
    validAction path r = true ↔
      r.measureType ≠ "" ∧ r.measureType ≠ "0" ∧ 0 < getValue r path := by
  simp [validAction, and_assoc]

theorem mem_industryStats {v : Bool} {db : List Record} {s : String} {r : Record}
    (h : r ∈ industryStats v db s) : r ∈ db ∧ r.industry = s := by
  cases v
  · simp [industryStats] at h
  · simpa [industryStats, List.mem_filter] using h

theorem mem_validActionsOf {v : Bool} {db : List Record} {s : String}
    {path : GoalPath} {r : Record} (h : r ∈ validActionsOf v db s path) :
    r ∈ db ∧ r.industry = s ∧ r.measureType ≠ "" ∧ r.measureType ≠ "0" ∧
      0 < getValue r path := by
  unfold validActionsOf at h
  have h' := List.mem_filter.mp h
  have h1 := mem_industryStats h'.1
  have h2 := (validAction_iff path r).mp h'.2
  exact ⟨h1.1, h1.2, h2⟩

theorem industryStats_ne_of_validActions {v : Bool} {db : List Record} {s : String}
    {path : GoalPath} (h : validActionsOf v db s path ≠ []) :
    (industryStats v db s).isEmpty = false := by
  rcases hx : industryStats v db s with _ | ⟨a, l⟩
  · exact absurd (by simp [validActionsOf, hx]) h
  · simp

/-! ### The two sort orders -/

instance (path : GoalPath) : IsTotal Record (goalRel path) :=
  ⟨fun a b => le_total _ _⟩

instance (path : GoalPath) : IsTrans Record (goalRel path) :=
  ⟨fun _ _ _ h1 h2 => le_trans h2 h1⟩

instance (path : GoalPath) : IsTotal Record (noGoalRel path) := by
  constructor
  intro a b
  rcases lt_trichotomy (getSystemShare a) (getSystemShare b) with h | h | h
  · exact Or.inr (Or.inl h)
  · rcases le_total (getValue b path) (getValue a path) with h' | h'
    · exact Or.inl (Or.inr ⟨h, h'⟩)
    · exact Or.inr (Or.inr ⟨h.symm, h'⟩)
  · exact Or.inl (Or.inl h)

instance (path : GoalPath) : IsTrans Record (noGoalRel path) := by
  constructor
  intro a b c h1 h2
  rcases h1 with h1 | ⟨h1e, h1v⟩ <;> rcases h2 with h2 | ⟨h2e, h2v⟩
  · exact Or.inl (lt_trans h2 h1)
  · exact Or.inl (h2e ▸ h1)
  · exact Or.inl (h1e ▸ h2)
  · exact Or.inr ⟨h1e.trans h2e, le_trans h2v h1v⟩

theorem sortGoal_perm (path : GoalPath) (l : List Record) :
    (sortGoal path l).Perm l :=
  List.perm_insertionSort _ _

theorem sortNoGoal_perm (path : GoalPath) (l : List Record) :
    (sortNoGoal path l).Perm l :=
  List.perm_insertionSort _ _

theorem sorted_sortGoal (path : GoalPath) (l : List Record) :
    List.Sorted (goalRel path) (sortGoal path l) :=
  List.sorted_insertionSort _ l

theorem sorted_sortNoGoal (path : GoalPath) (l : List Record) :
    List.Sorted (noGoalRel path) (sortNoGoal path l) :=
  List.sorted_insertionSort _ l

theorem mem_sortGoal {path : GoalPath} {l : List Record} {r : Record} :
    r ∈ sortGoal path l ↔ r ∈ l :=
  (sortGoal_perm path l).mem_iff

theorem mem_sortNoGoal {path : GoalPath} {l : List Record} {r : Record} :
    r ∈ sortNoGoal path l ↔ r ∈ l :=
  (sortNoGoal_perm path l).mem_iff

/-- The head of the sorted valid actions has maximal impact. -/
theorem head_max {path : GoalPath} {l : List Record} {primary : Record}
    {rest : List Record} (hs : sortGoal path l = primary :: rest) :
    ∀ x ∈ l, getValue x path ≤ getValue primary path := by
  intro x hx
  have hx' : x ∈ primary :: rest := by
    rw [← hs]; exact mem_sortGoal.mpr hx
  rcases List.mem_cons.mp hx' with h | h
  · exact h ▸ le_refl _
  · have hsorted := sorted_sortGoal path l
    rw [hs] at hsorted
    exact (List.pairwise_cons.mp hsorted).1 x h

theorem sortGoal_ne_nil {path : GoalPath} {l : List Record}
    (h : l ≠ []) : sortGoal path l ≠ [] := by
  intro hc
  have hp := sortGoal_perm path l
  rw [hc] at hp
  exact h hp.symm.eq_nil

/-! ### Structure of the two combo passes -/

theorem comboPass1_append (path : GoalPath) (gap : ℚ) :
    ∀ (cs combo : List Record) (s : ℚ),
      ∃ l, (comboPass1 path gap cs combo s).1 = combo ++ l ∧ l.Sublist cs := by
  intro cs
  induction cs with
  | nil => exact fun combo s => ⟨[], by simp [comboPass1], List.nil_sublist _⟩
  | cons cand cs ih =>
    intro combo s
    by_cases h1 : gap ≤ s
    · exact ⟨[], by simp [comboPass1, h1], List.nil_sublist _⟩
    · by_cases h2 : combo.any (fun c => c.measureType == cand.measureType)
      · obtain ⟨l, hl, hsub⟩ := ih combo s
        exact ⟨l, by simp [comboPass1, h1, h2, hl], hsub.cons _⟩
      · obtain ⟨l, hl, hsub⟩ := ih (combo ++ [cand]) (s + getValue cand path)
        refine ⟨cand :: l, ?_, hsub.cons₂ _⟩
        simp only [comboPass1, if_neg h1, Bool.not_eq_true] at hl ⊢
        simp [h2, hl]

theorem comboPass2_append (path : GoalPath) (gap : ℚ) :
    ∀ (cs combo : List Record) (s : ℚ),
      ∃ l, (comboPass2 path gap cs combo s).1 = combo ++ l ∧ l.Sublist cs := by
  intro cs
  induction cs with
  | nil => exact fun combo s => ⟨[], by simp [comboPass2], List.nil_sublist _⟩
  | cons cand cs ih =>
    intro combo s
    by_cases h1 : gap ≤ s
    · exact ⟨[], by simp [comboPass2, h1], List.nil_sublist _⟩
    · by_cases h2 : combo.any (fun c => c.rid == cand.rid)
      · obtain ⟨l, hl, hsub⟩ := ih combo s
        exact ⟨l, by simp [comboPass2, h1, h2, hl], hsub.cons _⟩
      · obtain ⟨l, hl, hsub⟩ := ih (combo ++ [cand]) (s + getValue cand path)
        refine ⟨cand :: l, ?_, hsub.cons₂ _⟩
        simp only [comboPass2, if_neg h1, Bool.not_eq_true] at hl ⊢
        simp [h2, hl]

theorem comboPass1_sum (path : GoalPath) (gap : ℚ) :
    ∀ (cs combo : List Record) (s : ℚ), s = impactSum path combo →
      (comboPass1 path gap cs combo s).2 =
        impactSum path (comboPass1 path gap cs combo s).1 := by
  intro cs
  induction cs with
  | nil => intro combo s h; simpa [comboPass1] using h
  | cons cand cs ih =>
    intro combo s h
    by_cases h1 : gap ≤ s
    · simpa [comboPass1, h1] using h
    · by_cases h2 : combo.any (fun c => c.measureType == cand.measureType)
      · simpa [comboPass1, h1, h2] using ih combo s h
      · have h' : s + getValue cand path = impactSum path (combo ++ [cand]) := by
          simp [impactSum, h]
        simpa [comboPass1, h1, h2] using
          ih (combo ++ [cand]) (s + getValue cand path) h'

theorem comboPass2_sum (path : GoalPath) (gap : ℚ) :
    ∀ (cs combo : List Record) (s : ℚ), s = impactSum path combo →
      (comboPass2 path gap cs combo s).2 =
        impactSum path (comboPass2 path gap cs combo s).1 := by
  intro cs
  induction cs with
  | nil => intro combo s h; simpa [comboPass2] using h
  | cons cand cs ih =>
    intro combo s h
    by_cases h1 : gap ≤ s
    · simpa [comboPass2, h1] using h
    · by_cases h2 : combo.any (fun c => c.rid == cand.rid)
      · simpa [comboPass2, h1, h2] using ih combo s h
      · have h' : s + getValue cand path = impactSum path (combo ++ [cand]) := by
          simp [impactSum, h]
        simpa [comboPass2, h1, h2] using
          ih (combo ++ [cand]) (s + getValue cand path) h'

/-- After the second pass, either the accumulated impact reached the gap or
every candidate's identity is present in the combo. -/
theorem comboPass2_exhaust (path : GoalPath) (gap : ℚ) :
    ∀ (cs combo : List Record) (s : ℚ),
      gap ≤ (comboPass2 path gap cs combo s).2 ∨
        ∀ x ∈ cs, x.rid ∈ (comboPass2 path gap cs combo s).1.map Record.rid := by
  intro cs
  induction cs with
  | nil => exact fun combo s => Or.inr (by simp)
  | cons cand cs ih =>
    intro combo s
    by_cases h1 : gap ≤ s
    · exact Or.inl (by simpa [comboPass2, h1])
    · by_cases h2 : combo.any (fun c => c.rid == cand.rid)
      · have hres : comboPass2 path gap (cand :: cs) combo s =
            comboPass2 path gap cs combo s := by
          simp [comboPass2, h1, h2]
        rw [hres]
        rcases ih combo s with h | h
        · exact Or.inl h
        · refine Or.inr ?_
          intro x hx
          rcases List.mem_cons.mp hx with hx | hx
          · obtain ⟨c, hc, hcr⟩ := List.any_eq_true.mp h2
            obtain ⟨l, hl, _⟩ := comboPass2_append path gap cs combo s
            subst hx
            rw [hl]
            exact List.mem_map.mpr ⟨c, List.mem_append_left _ hc, beq_iff_eq.mp hcr⟩
          · exact h x hx
      · have hres : comboPass2 path gap (cand :: cs) combo s =
            comboPass2 path gap cs (combo ++ [cand]) (s + getValue cand path) := by
          simp [comboPass2, h1, h2]
        rw [hres]
        rcases ih (combo ++ [cand]) (s + getValue cand path) with h | h
        · exact Or.inl h
        · refine Or.inr ?_
          intro x hx
          rcases List.mem_cons.mp hx with hx | hx
          · obtain ⟨l, hl, _⟩ :=
              comboPass2_append path gap cs (combo ++ [cand]) (s + getValue cand path)
            subst hx
            rw [hl]
            exact List.mem_map.mpr ⟨x, by simp, rfl⟩
          · exact h x hx

theorem comboPass1_mem (path : GoalPath) (gap : ℚ) :
    ∀ (cs combo : List Record) (s : ℚ) (x : Record),
      x ∈ (comboPass1 path gap cs combo s).1 → x ∈ combo ∨ x ∈ cs := by
  intro cs combo s x hx
  obtain ⟨l, hl, hsub⟩ := comboPass1_append path gap cs combo s
  rw [hl] at hx
  rcases List.mem_append.mp hx with h | h
  · exact Or.inl h
  · exact Or.inr (hsub.mem h)

theorem comboPass2_mem (path : GoalPath) (gap : ℚ) :
    ∀ (cs combo : List Record) (s : ℚ) (x : Record),
      x ∈ (comboPass2 path gap cs combo s).1 → x ∈ combo ∨ x ∈ cs := by
  intro cs combo s x hx
  obtain ⟨l, hl, hsub⟩ := comboPass2_append path gap cs combo s
  rw [hl] at hx
  rcases List.mem_append.mp hx with h | h
  · exact Or.inl h
  · exact Or.inr (hsub.mem h)

/-- The first pass keeps the measure types of the combo pairwise distinct. -/
theorem comboPass1_types_nodup (path : GoalPath) (gap : ℚ) :
    ∀ (cs combo : List Record) (s : ℚ),
      (combo.map Record.measureType).Nodup →
        ((comboPass1 path gap cs combo s).1.map Record.measureType).Nodup := by
  intro cs
  induction cs with
  | nil => intro combo s h; simpa [comboPass1] using h
  | cons cand cs ih =>
    intro combo s h
    by_cases h1 : gap ≤ s
    · simpa [comboPass1, h1] using h
    · by_cases h2 : combo.any (fun c => c.measureType == cand.measureType)
      · simpa [comboPass1, h1, h2] using ih combo s h
      · have hnew : cand.measureType ∉ combo.map Record.measureType := by
          intro hc
          obtain ⟨c, hc1, hc2⟩ := List.mem_map.mp hc
          apply h2
          rw [List.any_eq_true]
          exact ⟨c, hc1, beq_iff_eq.mpr hc2⟩
        have h' : ((combo ++ [cand]).map Record.measureType).Nodup := by
          simp only [List.map_append, List.map_cons, List.map_nil]
          exact List.Nodup.append h (List.nodup_singleton _)
            (by simpa [List.disjoint_singleton] using hnew)
        simpa [comboPass1, h1, h2] using
          ih (combo ++ [cand]) (s + getValue cand path) h'

/-- The first pass preserves distinctness of identities. -/
theorem comboPass1_rid_nodup (path : GoalPath) (gap : ℚ) :
    ∀ (cs combo : List Record) (s : ℚ),
      ((combo ++ cs).map Record.rid).Nodup →
        ((comboPass1 path gap cs combo s).1.map Record.rid).Nodup := by
  intro cs
  induction cs with
  | nil => intro combo s h; simpa [comboPass1] using h
  | cons cand cs ih =>
    intro combo s h
    by_cases h1 : gap ≤ s
    · have := h.sublist ((List.sublist_append_left combo (cand :: cs)).map Record.rid)
      simpa [comboPass1, h1] using this
    · by_cases h2 : combo.any (fun c => c.measureType == cand.measureType)
      · have h' : ((combo ++ cs).map Record.rid).Nodup :=
          h.sublist (((List.sublist_cons_self cand cs).append_left combo).map Record.rid)
        simpa [comboPass1, h1, h2] using ih combo s h'
      · have h' : (((combo ++ [cand]) ++ cs).map Record.rid).Nodup := by
          simpa [List.append_assoc] using h
        simpa [comboPass1, h1, h2] using
          ih (combo ++ [cand]) (s + getValue cand path) h'

/-- The second pass preserves distinctness of identities: a candidate whose
identity is already in the combo is skipped. -/
theorem comboPass2_rid_nodup (path : GoalPath) (gap : ℚ) :
    ∀ (cs combo : List Record) (s : ℚ),
      (combo.map Record.rid).Nodup →
        ((comboPass2 path gap cs combo s).1.map Record.rid).Nodup := by
  intro cs
  induction cs with
  | nil => intro combo s h; simpa [comboPass2] using h
  | cons cand cs ih =>
    intro combo s h
    by_cases h1 : gap ≤ s
    · simpa [comboPass2, h1] using h
    · by_cases h2 : combo.any (fun c => c.rid == cand.rid)
      · simpa [comboPass2, h1, h2] using ih combo s h
      · have hnew : cand.rid ∉ combo.map Record.rid := by
          intro hc
          obtain ⟨c, hc1, hc2⟩ := List.mem_map.mp hc
          apply h2
          rw [List.any_eq_true]
          exact ⟨c, hc1, beq_iff_eq.mpr hc2⟩
        have h' : ((combo ++ [cand]).map Record.rid).Nodup := by
          simp only [List.map_append, List.map_cons, List.map_nil]
          exact List.Nodup.append h (List.nodup_singleton _)
            (by simpa [List.disjoint_singleton] using hnew)
        simpa [comboPass2, h1, h2] using
          ih (combo ++ [cand]) (s + getValue cand path) h'

/-! ### Branch characterizations of `recommend` -/

theorem recommend_stats_empty {v : Bool} {db : List Record} {s : String}
    (goal : Option UserGoal) (h : (industryStats v db s).isEmpty = true) :
    recommend v db s goal = ⟨RKind.none, [], 0, Option.none⟩ := by
  unfold recommend
  simp [h]

theorem recommend_no_goal {v : Bool} {db : List Record} {s : String}
    (h : (industryStats v db s).isEmpty = false) :
    recommend v db s Option.none =
      recommendNoGoalBranch GoalPath.carbon (validActionsOf v db s GoalPath.carbon) := by
  unfold recommend
  simp [h]

theorem recommend_goal {v : Bool} {db : List Record} {s : String}
    (g : UserGoal) (h : (industryStats v db s).isEmpty = false) :
    recommend v db s (some g) =
      recommendGoalBranch g.path (gapFormula (some g)) (validActionsOf v db s g.path) := by
  unfold recommend
  simp [h]

theorem recommendGoalBranch_nil {path : GoalPath} {gap : ℚ} {va : List Record}
    (hs : sortGoal path va = []) :
    recommendGoalBranch path gap va = ⟨RKind.none, [], gap, Option.none⟩ := by
  unfold recommendGoalBranch
  rw [hs]

theorem recommendGoalBranch_single {path : GoalPath} {gap : ℚ} {va : List Record}
    {primary : Record} {rest : List Record}
    (hs : sortGoal path va = primary :: rest)
    (hge : gap ≤ getValue primary path) :
    recommendGoalBranch path gap va = singleResult path gap (primary :: rest) primary := by
  unfold recommendGoalBranch
  rw [hs]
  simp [hge]

theorem recommendGoalBranch_combo {path : GoalPath} {gap : ℚ} {va : List Record}
    {primary : Record} {rest : List Record}
    (hs : sortGoal path va = primary :: rest)
    (hlt : getValue primary path < gap) :
    recommendGoalBranch path gap va = comboResult path gap (primary :: rest) primary := by
  unfold recommendGoalBranch
  rw [hs]
  simp [not_le.mpr hlt]

/-! ### Properties of the combo run -/

theorem comboRun_cases (path : GoalPath) (gap : ℚ) (sorted : List Record)
    (primary : Record) :
    comboRun path gap sorted primary =
      (let candidates := sorted.filter (fun r => r.rid != primary.rid)
       let p1 := comboPass1 path gap candidates [primary] (getValue primary path)
       if p1.2 < gap then comboPass2 path gap candidates p1.1 p1.2 else p1) := rfl

theorem comboRun_mem {path : GoalPath} {gap : ℚ} {sorted : List Record}
    {primary x : Record} (h : x ∈ (comboRun path gap sorted primary).1) :
    x = primary ∨ x ∈ sorted := by
  rw [comboRun_cases] at h
  simp only at h
  by_cases hp : (comboPass1 path gap (sorted.filter (fun r => r.rid != primary.rid))
      [primary] (getValue primary path)).2 < gap
  · rw [if_pos hp] at h
    rcases comboPass2_mem path gap _ _ _ _ h with h | h
    · rcases comboPass1_mem path gap _ _ _ _ h with h | h
      · exact Or.inl (by simpa using h)
      · exact Or.inr ((List.mem_filter.mp h).1)
    · exact Or.inr ((List.mem_filter.mp h).1)
  · rw [if_neg hp] at h
    rcases comboPass1_mem path gap _ _ _ _ h with h | h
    · exact Or.inl (by simpa using h)
    · exact Or.inr ((List.mem_filter.mp h).1)

theorem comboRun_sum (path : GoalPath) (gap : ℚ) (sorted : List Record)
    (primary : Record) :
    (comboRun path gap sorted primary).2 =
      impactSum path (comboRun path gap sorted primary).1 := by
  rw [comboRun_cases]
  simp only
  have h1 : getValue primary path = impactSum path [primary] := by simp [impactSum]
  by_cases hp : (comboPass1 path gap (sorted.filter (fun r => r.rid != primary.rid))
      [primary] (getValue primary path)).2 < gap
  · rw [if_pos hp]
    exact comboPass2_sum path gap _ _ _ (comboPass1_sum path gap _ _ _ h1)
  · rw [if_neg hp]
    exact comboPass1_sum path gap _ _ _ h1

theorem comboRun_exhaust (path : GoalPath) (gap : ℚ) (sorted : List Record)
    (primary : Record) :
    gap ≤ (comboRun path gap sorted primary).2 ∨
      ∀ x ∈ sorted.filter (fun r => r.rid != primary.rid),
        x.rid ∈ (comboRun path gap sorted primary).1.map Record.rid := by
  rw [comboRun_cases]
  simp only
  by_cases hp : (comboPass1 path gap (sorted.filter (fun r => r.rid != primary.rid))
      [primary] (getValue primary path)).2 < gap
  · rw [if_pos hp]
    exact comboPass2_exhaust path gap _ _ _
  · rw [if_neg hp]
    exact Or.inl (not_lt.mp hp)

theorem comboRun_head_structure (path : GoalPath) (gap : ℚ) (sorted : List Record)
    (primary : Record) :
    ∃ l, (comboRun path gap sorted primary).1 = primary :: l := by
  rw [comboRun_cases]
  simp only
  by_cases hp : (comboPass1 path gap (sorted.filter (fun r => r.rid != primary.rid))
      [primary] (getValue primary path)).2 < gap
  · rw [if_pos hp]
    obtain ⟨l1, hl1, _⟩ := comboPass1_append path gap
      (sorted.filter (fun r => r.rid != primary.rid)) [primary] (getValue primary path)
    obtain ⟨l2, hl2, _⟩ := comboPass2_append path gap
      (sorted.filter (fun r => r.rid != primary.rid)) _ _
    exact ⟨l1 ++ l2, by rw [hl2, hl1]; simp⟩
  · rw [if_neg hp]
    obtain ⟨l1, hl1, _⟩ := comboPass1_append path gap
      (sorted.filter (fun r => r.rid != primary.rid)) [primary] (getValue primary path)
    exact ⟨l1, by rw [hl1]; simp⟩

/-- The first-pass combo is a prefix of the final combo. -/
theorem comboRun_pass1_structure (path : GoalPath) (gap : ℚ) (sorted : List Record)
    (primary : Record) :
    ∃ l, (comboRun path gap sorted primary).1 =
      (comboPass1 path gap (sorted.filter (fun r => r.rid != primary.rid))
        [primary] (getValue primary path)).1 ++ l := by
  rw [comboRun_cases]
  simp only
  by_cases hp : (comboPass1 path gap (sorted.filter (fun r => r.rid != primary.rid))
      [primary] (getValue primary path)).2 < gap
  · rw [if_pos hp]
    obtain ⟨l2, hl2, _⟩ := comboPass2_append path gap
      (sorted.filter (fun r => r.rid != primary.rid)) _ _
    exact ⟨l2, hl2⟩
  · rw [if_neg hp]
    exact ⟨[], by simp⟩

theorem comboRun_rid_nodup {path : GoalPath} {gap : ℚ} {sorted : List Record}
    {primary : Record} (hnd : (sorted.map Record.rid).Nodup)
    (hmem : primary ∈ sorted) :
    ((comboRun path gap sorted primary).1.map Record.rid).Nodup := by
  have hcand : ((sorted.filter (fun r => r.rid != primary.rid)).map Record.rid).Nodup :=
    hnd.sublist ((List.filter_sublist sorted).map Record.rid)
  have hnotin : primary.rid ∉
      (sorted.filter (fun r => r.rid != primary.rid)).map Record.rid := by
    intro hc
    obtain ⟨c, hc1, hc2⟩ := List.mem_map.mp hc
    have := (List.mem_filter.mp hc1).2
    rw [hc2] at this
    simp at this
  have hinit : (([primary] ++ sorted.filter (fun r => r.rid != primary.rid)).map
      Record.rid).Nodup := by
    simp only [List.map_append, List.map_cons, List.map_nil, List.singleton_append]
    exact List.nodup_cons.mpr ⟨hnotin, hcand⟩
  rw [comboRun_cases]
  simp only
  by_cases hp : (comboPass1 path gap (sorted.filter (fun r => r.rid != primary.rid))
      [primary] (getValue primary path)).2 < gap
  · rw [if_pos hp]
    exact comboPass2_rid_nodup path gap _ _ _ (comboPass1_rid_nodup path gap _ _ _ hinit)
  · rw [if_neg hp]
    exact comboPass1_rid_nodup path gap _ _ _ hinit

/-! ### Master membership lemma -/

theorem mem_recommend_items {v : Bool} {db : List Record} {s : String}
    {goal : Option UserGoal} {r : Record}
    (h : r ∈ (recommend v db s goal).items) :
    r ∈ validActionsOf v db s (activePath goal) := by
  cases hemp : (industryStats v db s).isEmpty with
  | true => rw [recommend_stats_empty goal hemp] at h; simp at h
  | false =>
    cases goal with
    | none =>
      rw [recommend_no_goal hemp] at h
      simp only [recommendNoGoalBranch] at h
      exact mem_sortNoGoal.mp (List.mem_of_mem_take h)
    | some g =>
      rw [recommend_goal g hemp] at h
      cases hso : sortGoal g.path (validActionsOf v db s g.path) with
      | nil => rw [recommendGoalBranch_nil hso] at h; simp at h
      | cons primary rest =>
        have hback : ∀ x, x ∈ primary :: rest →
            x ∈ validActionsOf v db s (activePath (some g)) := by
          intro x hx
          rw [← hso] at hx
          exact mem_sortGoal.mp hx
        by_cases hge : gapFormula (some g) ≤ getValue primary g.path
        · rw [recommendGoalBranch_single hso hge] at h
          simp only [singleResult] at h
          rcases List.mem_cons.mp h with h | h
          · exact h ▸ hback primary (List.mem_cons_self _ _)
          · exact hback r ((List.mem_filter.mp (List.mem_of_mem_take h)).1)
        · rw [recommendGoalBranch_combo hso (not_le.mp hge)] at h
          simp only [comboResult] at h
          rcases comboRun_mem h with h | h
          · exact h ▸ hback primary (List.mem_cons_self _ _)
          · exact hback r h

theorem recommendGoalBranch_targetGap (path : GoalPath) (gap : ℚ)
    (va : List Record) : (recommendGoalBranch path gap va).targetGap = gap := by
  cases hsv : sortGoal path va with
  | nil => rw [recommendGoalBranch_nil hsv]
  | cons p r =>
    by_cases hge : gap ≤ getValue p path
    · rw [recommendGoalBranch_single hsv hge]; rfl
    · rw [recommendGoalBranch_combo hsv (not_le.mp hge)]; rfl

/-! ### The claims -/

/-- C3: every item of the returned list belongs to the requested industry,
has a measure type that is neither empty nor the literal "0", and has a
strictly positive impact value for the active path (carbon with no goal,
the goal's path otherwise). -/
theorem filter_correctness (v : Bool) (db : List Record) (s : String)
    (goal : Option UserGoal) (r : Record)
    (h : r ∈ (recommend v db s goal).items) :
    r.industry = s ∧ r.measureType ≠ "" ∧ r.measureType ≠ "0" ∧
      0 < getValue r (activePath goal) := by
  have hm := mem_validActionsOf (mem_recommend_items h)
  exact ⟨hm.2.1, hm.2.2.1, hm.2.2.2.1, hm.2.2.2.2⟩

theorem filter_correctness_witness :
    wr1 ∈ (recommend true [wr1] "A" Option.none).items ∧
      (wr1.industry = "A" ∧ wr1.measureType ≠ "" ∧ wr1.measureType ≠ "0" ∧
        0 < getValue wr1 (activePath Option.none)) :=
  have h : wr1 ∈ (recommend true [wr1] "A" Option.none).items := by
    norm_num +decide [recommend, industryStats, recommendNoGoalBranch, validActionsOf,
      validAction, sortNoGoal, List.insertionSort, List.orderedInsert, getValue, jsNum,
      jsParseFloat, parseSign, parseDigits, parseExponent, toNat_d5, toNat_d0, wr1]
  ⟨h, filter_correctness true [wr1] "A" Option.none wr1 h⟩

/-- C4 counterexample: on a database holding one row of the requested
industry whose measure type is the placeholder "0" and with no goal, the
filtered set is empty yet the result kind is `no_goal`, not `none` as the
claim demands. -/
theorem empty_filtered_kind_cex :
    validActionsOf true [wrBad] "A" GoalPath.carbon = [] ∧
    (recommend true [wrBad] "A" Option.none).type = RKind.no_goal ∧
    RKind.no_goal ≠ RKind.none := by
  refine ⟨?_, ?_, by decide⟩
  · norm_num +decide [validActionsOf, industryStats, validAction, wrBad]
  · norm_num +decide [recommend, industryStats, recommendNoGoalBranch, wrBad]

/-- C4 amended: when the filtered set is empty the returned items are
always empty; the kind is `none` except in the no-goal case with at least
one industry-matching row, where it is `no_goal`; and the target gap is
the Step-2 value when an industry-matching row exists but `0` otherwise
(the early return of App.tsx line 125 ignores the goal). -/
theorem empty_filtered_result (v : Bool) (db : List Record) (s : String)
    (goal : Option UserGoal)
    (hempty : validActionsOf v db s (activePath goal) = []) :
    (recommend v db s goal).items = [] ∧
    (recommend v db s goal).targetGap =
      (if (industryStats v db s).isEmpty = true then 0 else gapFormula goal) ∧
    (recommend v db s goal).type =
      (if ((industryStats v db s).isEmpty || goal.isSome) = true then RKind.none
       else RKind.no_goal) := by
  cases hemp : (industryStats v db s).isEmpty with
  | true =>
    rw [recommend_stats_empty goal hemp]
    simp [hemp]
  | false =>
    cases goal with
    | none =>
      rw [recommend_no_goal hemp]
      have : validActionsOf v db s GoalPath.carbon = [] := hempty
      simp [recommendNoGoalBranch, this, sortNoGoal, List.insertionSort, hemp, gapFormula]
    | some g =>
      have hva : validActionsOf v db s g.path = [] := hempty
      have hnil : sortGoal g.path (validActionsOf v db s g.path) = [] := by
        rw [hva]; rfl
      rw [recommend_goal g hemp, recommendGoalBranch_nil hnil]
      simp [hemp]

theorem empty_filtered_result_witness :
    validActionsOf true [wrBad] "A" (activePath (some wgAbs)) = [] ∧
      ((recommend true [wrBad] "A" (some wgAbs)).items = [] ∧
        (recommend true [wrBad] "A" (some wgAbs)).targetGap =
          (if (industryStats true [wrBad] "A").isEmpty = true then 0
           else gapFormula (some wgAbs)) ∧
        (recommend true [wrBad] "A" (some wgAbs)).type =
          (if ((industryStats true [wrBad] "A").isEmpty || (some wgAbs).isSome) = true
           then RKind.none else RKind.no_goal)) :=
  have h : validActionsOf true [wrBad] "A" (activePath (some wgAbs)) = [] := by
    norm_num +decide [validActionsOf, industryStats, validAction, activePath, wrBad, wgAbs]
  ⟨h, empty_filtered_result true [wrBad] "A" (some wgAbs) h⟩

/-- C6: with no goal and a non-empty filtered set, the result has kind
`no_goal`, target gap 0, and its items are the first five records of the
filtered set stably sorted by system share descending with ties broken by
the carbon impact value descending. -/
theorem no_goal_top5 (v : Bool) (db : List Record) (s : String)
    (hne : validActionsOf v db s GoalPath.carbon ≠ []) :
    (recommend v db s Option.none).type = RKind.no_goal ∧
    (recommend v db s Option.none).targetGap = 0 ∧
    (recommend v db s Option.none).items =
      (sortNoGoal GoalPath.carbon (validActionsOf v db s GoalPath.carbon)).take 5 ∧
    (recommend v db s Option.none).items.length ≤ 5 ∧
    List.Sorted (noGoalRel GoalPath.carbon) (recommend v db s Option.none).items ∧
    (sortNoGoal GoalPath.carbon (validActionsOf v db s GoalPath.carbon)).Perm
      (validActionsOf v db s GoalPath.carbon) := by
  have hemp := industryStats_ne_of_validActions hne
  rw [recommend_no_goal hemp]
  refine ⟨rfl, rfl, rfl, ?_, ?_, sortNoGoal_perm _ _⟩
  · exact List.length_take_le _ _
  · exact (sorted_sortNoGoal GoalPath.carbon _).sublist (List.take_sublist _ _)

theorem no_goal_top5_witness :
    validActionsOf true [wr1, wr2] "A" GoalPath.carbon ≠ [] ∧
      ((recommend true [wr1, wr2] "A" Option.none).type = RKind.no_goal ∧
        (recommend true [wr1, wr2] "A" Option.none).targetGap = 0 ∧
        (recommend true [wr1, wr2] "A" Option.none).items =
          (sortNoGoal GoalPath.carbon
            (validActionsOf true [wr1, wr2] "A" GoalPath.carbon)).take 5 ∧
        (recommend true [wr1, wr2] "A" Option.none).items.length ≤ 5 ∧
        List.Sorted (noGoalRel GoalPath.carbon)
          (recommend true [wr1, wr2] "A" Option.none).items ∧
        (sortNoGoal GoalPath.carbon
          (validActionsOf true [wr1, wr2] "A" GoalPath.carbon)).Perm
          (validActionsOf true [wr1, wr2] "A" GoalPath.carbon)) :=
  have h : validActionsOf true [wr1, wr2] "A" GoalPath.carbon ≠ [] := by
    norm_num +decide [validActionsOf, industryStats, validAction, getValue, jsNum,
      jsParseFloat, parseSign, parseDigits, parseExponent, toNat_d5, toNat_d3,
      toNat_d0, wr1, wr2]
  ⟨h, no_goal_top5 true [wr1, wr2] "A" h⟩

/-- C7 counterexample: with an empty database and a percentage goal of 10
percent over a baseline of 1000, the Step-2 formula gives 100 but the
early return of App.tsx line 125 reports a target gap of 0. -/
theorem targetGap_early_return_cex :
    (recommend true ([] : List Record) "A" (some wgPct)).targetGap = 0 ∧
    wgPct.currentValue * (wgPct.targetValue / 100) = 100 ∧ (0 : ℚ) ≠ 100 := by
  refine ⟨?_, by norm_num [wgPct], by norm_num⟩
  simp [recommend, industryStats]

/-- C7 amended: the returned target gap equals the Step-2 value (0 with no
goal, baseline times target over 100 for a percentage target, the target
itself for an absolute target) whenever at least one row of the requested
industry exists, and equals 0 otherwise, for every result kind. -/
theorem targetGap_formula :
    (∀ (v : Bool) (db : List Record) (s : String) (goal : Option UserGoal),
      (recommend v db s goal).targetGap =
        if (industryStats v db s).isEmpty = true then 0 else gapFormula goal) ∧
    gapFormula Option.none = 0 ∧
    (∀ (p : GoalPath) (b t : ℚ),
      gapFormula (some ⟨p, b, TargetType.percentage, t⟩) = b * (t / 100)) ∧
    (∀ (p : GoalPath) (b t : ℚ),
      gapFormula (some ⟨p, b, TargetType.absolute, t⟩) = t) := by
  refine ⟨?_, rfl, fun p b t => by simp [gapFormula], fun p b t => by simp [gapFormula]⟩
  intro v db s goal
  cases hemp : (industryStats v db s).isEmpty with
  | true => rw [recommend_stats_empty goal hemp]; simp
  | false =>
    cases goal with
    | none => rw [recommend_no_goal hemp]; simp [recommendNoGoalBranch, gapFormula]
    | some g => rw [recommend_goal g hemp, recommendGoalBranch_targetGap]; simp

/-- C9: the engine never mutates its inputs.  In the source the only
in-place operation is `Array.prototype.sort`, and it is applied to the
fresh arrays produced by `.filter`; no record field is ever assigned.  In
the state-passing embedding the record store therefore comes back
unchanged, and the result is exactly the pure `recommend` value. -/
theorem records_immutable :
    ∀ (v : Bool) (db : List Record) (s : String) (goal : Option UserGoal),
      (recommendWithState v db s goal).2 = db ∧
      (recommendWithState v db s goal).1 = recommend v db s goal :=
  fun _ _ _ _ => ⟨rfl, rfl⟩

/-- C2: when a goal is set, the filtered set is non-empty and the maximal
impact reaches the target gap (in particular whenever the gap is not
positive), the result is a single-path recommendation: the maximal-impact
record first, at most two further records of a different measure type, in
descending impact order, with the head's impact at least the gap. -/
theorem single_sufficiency (v : Bool) (db : List Record) (s : String)
    (g : UserGoal) (primary : Record) (rest : List Record)
    (hs : sortGoal g.path (validActionsOf v db s g.path) = primary :: rest)
    (hge : gapFormula (some g) ≤ getValue primary g.path ∨ gapFormula (some g) ≤ 0) :
    (recommend v db s (some g)).type = RKind.single ∧
    (recommend v db s (some g)).items.headI = primary ∧
    (recommend v db s (some g)).items.length ≤ 3 ∧
    gapFormula (some g) ≤ getValue (recommend v db s (some g)).items.headI g.path ∧
    (∀ x ∈ validActionsOf v db s g.path,
      getValue x g.path ≤ getValue (recommend v db s (some g)).items.headI g.path) ∧
    (∀ x ∈ (recommend v db s (some g)).items.tail,
      x.measureType ≠ primary.measureType) ∧
    List.Sorted (goalRel g.path) (recommend v db s (some g)).items ∧
    (recommend v db s (some g)).targetGap = gapFormula (some g) := by
  have hpm : primary ∈ validActionsOf v db s g.path := by
    have : primary ∈ sortGoal g.path (validActionsOf v db s g.path) := by
      rw [hs]; exact List.mem_cons_self _ _
    exact mem_sortGoal.mp this
  have hge' : gapFormula (some g) ≤ getValue primary g.path := by
    rcases hge with h | h
    · exact h
    · exact le_trans h (le_of_lt (mem_validActionsOf hpm).2.2.2.2)
  have hva : validActionsOf v db s g.path ≠ [] := fun hc => by
    rw [hc] at hpm; simp at hpm
  have hemp := industryStats_ne_of_validActions hva
  rw [recommend_goal g hemp, recommendGoalBranch_single hs hge']
  simp only [singleResult, List.headI_cons]
  have hmax := head_max hs
  have htail : ∀ x ∈ (((primary :: rest).filter
      (fun r => r.measureType != primary.measureType)).take 2),
      x ∈ primary :: rest ∧ x.measureType ≠ primary.measureType := by
    intro x hx
    have hxf := List.mem_of_mem_take hx
    have hxm := List.mem_filter.mp hxf
    exact ⟨hxm.1, by simpa using hxm.2⟩
  refine ⟨trivial, trivial, ?_, hge', ?_, ?_, ?_, trivial⟩
  · simp only [List.length_cons]
    have := List.length_take_le 2 ((primary :: rest).filter
      (fun r => r.measureType != primary.measureType))
    omega
  · intro x hx
    exact hmax x hx
  · intro x hx
    exact (htail x (by simpa using hx)).2
  · refine List.pairwise_cons.mpr ⟨?_, ?_⟩
    · intro x hx
      have hxv : x ∈ validActionsOf v db s g.path := by
        have := (htail x hx).1
        rw [← hs] at this
        exact mem_sortGoal.mp this
      exact hmax x hxv
    · have hsorted : List.Sorted (goalRel g.path) (primary :: rest) := by
        rw [← hs]; exact sorted_sortGoal g.path _
      exact hsorted.sublist ((List.take_sublist _ _).trans (List.filter_sublist _))

theorem single_sufficiency_witness :
    sortGoal wgLow.path (validActionsOf true [wr1, wr2] "A" wgLow.path) = [wr1, wr2] ∧
    (gapFormula (some wgLow) ≤ getValue wr1 wgLow.path ∨ gapFormula (some wgLow) ≤ 0) ∧
      ((recommend true [wr1, wr2] "A" (some wgLow)).type = RKind.single ∧
        (recommend true [wr1, wr2] "A" (some wgLow)).items.headI = wr1 ∧
        (recommend true [wr1, wr2] "A" (some wgLow)).items.length ≤ 3 ∧
        gapFormula (some wgLow) ≤
          getValue (recommend true [wr1, wr2] "A" (some wgLow)).items.headI wgLow.path ∧
        (∀ x ∈ validActionsOf true [wr1, wr2] "A" wgLow.path,
          getValue x wgLow.path ≤
            getValue (recommend true [wr1, wr2] "A" (some wgLow)).items.headI wgLow.path) ∧
        (∀ x ∈ (recommend true [wr1, wr2] "A" (some wgLow)).items.tail,
          x.measureType ≠ wr1.measureType) ∧
        List.Sorted (goalRel wgLow.path) (recommend true [wr1, wr2] "A" (some wgLow)).items ∧
        (recommend true [wr1, wr2] "A" (some wgLow)).targetGap = gapFormula (some wgLow)) :=
  have hs : sortGoal wgLow.path (validActionsOf true [wr1, wr2] "A" wgLow.path) =
      [wr1, wr2] := by
    norm_num +decide [sortGoal, validActionsOf, industryStats, validAction, getValue,
      jsNum, jsParseFloat, parseSign, parseDigits, parseExponent, toNat_d5, toNat_d3,
      toNat_d0, List.insertionSort, List.orderedInsert, goalRel, wgLow, wr1, wr2]
  have hge : gapFormula (some wgLow) ≤ getValue wr1 wgLow.path ∨
      gapFormula (some wgLow) ≤ 0 :=
    Or.inl (by
      norm_num +decide [gapFormula, getValue, jsNum, jsParseFloat, parseSign,
        parseDigits, parseExponent, toNat_d5, toNat_d0, toNat_d4, wgLow, wr1])
  ⟨hs, hge, single_sufficiency true [wr1, wr2] "A" wgLow wr1 [wr2] hs hge⟩

/-- C1: when a goal is set, the filtered set is non-empty and even the
maximal impact is below the target gap, the result is a combo whose
`totalImpact` is the sum of the impacts of its items, and either the sum
reached the gap or every candidate identity ended up in the combo. -/
theorem combo_progress (v : Bool) (db : List Record) (s : String)
    (g : UserGoal) (primary : Record) (rest : List Record)
    (hs : sortGoal g.path (validActionsOf v db s g.path) = primary :: rest)
    (hlt : getValue primary g.path < gapFormula (some g)) :
    (recommend v db s (some g)).type = RKind.combo ∧
    (recommend v db s (some g)).totalImpact =
      some (impactSum g.path (recommend v db s (some g)).items) ∧
    (gapFormula (some g) ≤ impactSum g.path (recommend v db s (some g)).items ∨
      ∀ x ∈ (primary :: rest).filter (fun r => r.rid != primary.rid),
        x.rid ∈ (recommend v db s (some g)).items.map Record.rid) := by
  have hva : validActionsOf v db s g.path ≠ [] := fun hc => by
    rw [hc] at hs
    simp [sortGoal, List.insertionSort] at hs
  have hemp := industryStats_ne_of_validActions hva
  rw [recommend_goal g hemp, recommendGoalBranch_combo hs hlt]
  simp only [comboResult]
  refine ⟨trivial, ?_, ?_⟩
  · rw [comboRun_sum]
  · rcases comboRun_exhaust g.path (gapFormula (some g)) (primary :: rest) primary
      with h | h
    · exact Or.inl (by rw [← comboRun_sum]; exact h)
    · exact Or.inr h

theorem combo_progress_witness :
    sortGoal wgAbs.path (validActionsOf true [wr1, wr2] "A" wgAbs.path) = [wr1, wr2] ∧
    getValue wr1 wgAbs.path < gapFormula (some wgAbs) ∧
      ((recommend true [wr1, wr2] "A" (some wgAbs)).type = RKind.combo ∧
        (recommend true [wr1, wr2] "A" (some wgAbs)).totalImpact =
          some (impactSum wgAbs.path (recommend true [wr1, wr2] "A" (some wgAbs)).items) ∧
        (gapFormula (some wgAbs) ≤
            impactSum wgAbs.path (recommend true [wr1, wr2] "A" (some wgAbs)).items ∨
          ∀ x ∈ ([wr1, wr2] : List Record).filter (fun r => r.rid != wr1.rid),
            x.rid ∈ (recommend true [wr1, wr2] "A" (some wgAbs)).items.map Record.rid)) :=
  have hs : sortGoal wgAbs.path (validActionsOf true [wr1, wr2] "A" wgAbs.path) =
      [wr1, wr2] := by
    norm_num +decide [sortGoal, validActionsOf, industryStats, validAction, getValue,
      jsNum, jsParseFloat, parseSign, parseDigits, parseExponent, toNat_d5, toNat_d3,
      toNat_d0, List.insertionSort, List.orderedInsert, goalRel, wgAbs, wr1, wr2]
  have hlt : getValue wr1 wgAbs.path < gapFormula (some wgAbs) := by
    norm_num +decide [gapFormula, getValue, jsNum, jsParseFloat, parseSign,
      parseDigits, parseExponent, toNat_d5, toNat_d0, toNat_d1, wgAbs, wr1]
  ⟨hs, hlt, combo_progress true [wr1, wr2] "A" wgAbs wr1 [wr2] hs hlt⟩

/-- C8: in a combo result the records produced by the first greedy pass
form a prefix of the items carrying pairwise distinct measure types; the
fallback pass only appends after that prefix. -/
theorem first_pass_distinct_types (v : Bool) (db : List Record) (s : String)
    (g : UserGoal) (primary : Record) (rest : List Record)
    (hs : sortGoal g.path (validActionsOf v db s g.path) = primary :: rest)
    (hlt : getValue primary g.path < gapFormula (some g)) :
    ((comboPass1 g.path (gapFormula (some g))
        ((primary :: rest).filter (fun r => r.rid != primary.rid))
        [primary] (getValue primary g.path)).1.map Record.measureType).Nodup ∧
    ∃ l, (recommend v db s (some g)).items =
      (comboPass1 g.path (gapFormula (some g))
        ((primary :: rest).filter (fun r => r.rid != primary.rid))
        [primary] (getValue primary g.path)).1 ++ l := by
  constructor
  · exact comboPass1_types_nodup g.path (gapFormula (some g)) _ _ _ (by simp)
  · have hva : validActionsOf v db s g.path ≠ [] := fun hc => by
      rw [hc] at hs
      simp [sortGoal, List.insertionSort] at hs
    have hemp := industryStats_ne_of_validActions hva
    rw [recommend_goal g hemp, recommendGoalBranch_combo hs hlt]
    simp only [comboResult]
    exact comboRun_pass1_structure g.path (gapFormula (some g)) (primary :: rest) primary

theorem first_pass_distinct_types_witness :
    sortGoal wgAbs.path (validActionsOf true [wr2, wr1] "A" wgAbs.path) = [wr1, wr2] ∧
    getValue wr1 wgAbs.path < gapFormula (some wgAbs) ∧
      (((comboPass1 wgAbs.path (gapFormula (some wgAbs))
          (([wr1, wr2] : List Record).filter (fun r => r.rid != wr1.rid))
          [wr1] (getValue wr1 wgAbs.path)).1.map Record.measureType).Nodup ∧
        ∃ l, (recommend true [wr2, wr1] "A" (some wgAbs)).items =
          (comboPass1 wgAbs.path (gapFormula (some wgAbs))
            (([wr1, wr2] : List Record).filter (fun r => r.rid != wr1.rid))
            [wr1] (getValue wr1 wgAbs.path)).1 ++ l) :=
  have hs : sortGoal wgAbs.path (validActionsOf true [wr2, wr1] "A" wgAbs.path) =
      [wr1, wr2] := by
    norm_num +decide [sortGoal, validActionsOf, industryStats, validAction, getValue,
      jsNum, jsParseFloat, parseSign, parseDigits, parseExponent, toNat_d5, toNat_d3,
      toNat_d0, List.insertionSort, List.orderedInsert, goalRel, wgAbs, wr1, wr2]
  have hlt : getValue wr1 wgAbs.path < gapFormula (some wgAbs) := by
    norm_num +decide [gapFormula, getValue, jsNum, jsParseFloat, parseSign,
      parseDigits, parseExponent, toNat_d5, toNat_d0, toNat_d1, wgAbs, wr1]
  ⟨hs, hlt, first_pass_distinct_types true [wr2, wr1] "A" wgAbs wr1 [wr2] hs hlt⟩

/-- C10: in a combo result over pairwise distinct record identities no
record appears twice, every item comes from the filtered set, the head is
the primary, and the primary's impact is maximal over the filtered set. -/
theorem combo_items_invariants (v : Bool) (db : List Record) (s : String)
    (g : UserGoal) (primary : Record) (rest : List Record)
    (hnd : (db.map Record.rid).Nodup)
    (hs : sortGoal g.path (validActionsOf v db s g.path) = primary :: rest)
    (hlt : getValue primary g.path < gapFormula (some g)) :
    ((recommend v db s (some g)).items.map Record.rid).Nodup ∧
    (recommend v db s (some g)).items.Nodup ∧
    (∀ x ∈ (recommend v db s (some g)).items, x ∈ validActionsOf v db s g.path) ∧
    (recommend v db s (some g)).items.headI = primary ∧
    ∀ x ∈ validActionsOf v db s g.path, getValue x g.path ≤ getValue primary g.path := by
  have hva : validActionsOf v db s g.path ≠ [] := fun hc => by
    rw [hc] at hs
    simp [sortGoal, List.insertionSort] at hs
  have hemp := industryStats_ne_of_validActions hva
  have hstats_sub : (industryStats v db s).Sublist db := by
    unfold industryStats
    cases v
    · simp
    · simpa using List.filter_sublist db
  have hva_nd : ((validActionsOf v db s g.path).map Record.rid).Nodup :=
    hnd.sublist (((List.filter_sublist _).trans hstats_sub).map Record.rid)
  have hsort_nd : ((primary :: rest).map Record.rid).Nodup := by
    rw [← hs]
    exact (((sortGoal_perm g.path _).map Record.rid).nodup_iff).mpr hva_nd
  have hrid := @comboRun_rid_nodup g.path (gapFormula (some g)) (primary :: rest)
    primary hsort_nd (List.mem_cons_self _ _)
  rw [recommend_goal g hemp, recommendGoalBranch_combo hs hlt]
  simp only [comboResult]
  obtain ⟨l, hl⟩ := comboRun_head_structure g.path (gapFormula (some g))
    (primary :: rest) primary
  refine ⟨hrid, hrid.of_map Record.rid, ?_, by rw [hl]; rfl, head_max hs⟩
  intro x hx
  rcases comboRun_mem hx with h | h
  · subst h
    have : x ∈ sortGoal g.path (validActionsOf v db s g.path) := by
      rw [hs]; exact List.mem_cons_self _ _
    exact mem_sortGoal.mp this
  · have : x ∈ sortGoal g.path (validActionsOf v db s g.path) := by rw [hs]; exact h
    exact mem_sortGoal.mp this

theorem combo_items_invariants_witness :
    (([wr1, wr2] : List Record).map Record.rid).Nodup ∧
    sortGoal wgAbs.path (validActionsOf true [wr1, wr2] "A" wgAbs.path) = [wr1, wr2] ∧
    getValue wr1 wgAbs.path < gapFormula (some wgAbs) ∧
      (((recommend true [wr1, wr2] "A" (some wgAbs)).items.map Record.rid).Nodup ∧
        (recommend true [wr1, wr2] "A" (some wgAbs)).items.Nodup ∧
        (∀ x ∈ (recommend true [wr1, wr2] "A" (some wgAbs)).items,
          x ∈ validActionsOf true [wr1, wr2] "A" wgAbs.path) ∧
        (recommend true [wr1, wr2] "A" (some wgAbs)).items.headI = wr1 ∧
        ∀ x ∈ validActionsOf true [wr1, wr2] "A" wgAbs.path,
          getValue x wgAbs.path ≤ getValue wr1 wgAbs.path) :=
  have hnd : (([wr1, wr2] : List Record).map Record.rid).Nodup := by
    norm_num +decide [wr1, wr2]
  have hs : sortGoal wgAbs.path (validActionsOf true [wr1, wr2] "A" wgAbs.path) =
      [wr1, wr2] := by
    norm_num +decide [sortGoal, validActionsOf, industryStats, validAction, getValue,
      jsNum, jsParseFloat, parseSign, parseDigits, parseExponent, toNat_d5, toNat_d3,
      toNat_d0, List.insertionSort, List.orderedInsert, goalRel, wgAbs, wr1, wr2]
  have hlt : getValue wr1 wgAbs.path < gapFormula (some wgAbs) := by
    norm_num +decide [gapFormula, getValue, jsNum, jsParseFloat, parseSign,
      parseDigits, parseExponent, toNat_d5, toNat_d0, toNat_d1, wgAbs, wr1]
  ⟨hnd, hs, hlt, combo_items_invariants true [wr1, wr2] "A" wgAbs wr1 [wr2] hnd hs hlt⟩

/-- C5 counterexample: the impact parse used for ranking is the raw
`parseFloat`, which does not strip thousands separators: a carbon median
of "1,234" is ranked as 1, not 1234. -/
theorem ranking_parse_comma_cex :
    getValue wrComma GoalPath.carbon = 1 ∧ (1 : ℚ) ≠ 1234 := by
  refine ⟨?_, by norm_num⟩
  norm_num +decide [getValue, wrComma, jsNum, jsParseFloat, parseSign, parseDigits,
    parseExponent, toNat_d1]

/-- C5 amended: all numeric parsing in the engine is total by construction
(`Option.none` models NaN and collapses to 0); `parseMetric`, which feeds
the displayed metrics, maps "", "abc", "1,234", "12.5%" to 0, 0, 1234,
12.5; but the impact parse used for ranking (`getValue`) and the share
parse (`getSystemShare`) do not strip thousands separators: they agree on
"", "abc" and "12.5%" but map "1,234" to 1. -/
theorem numeric_parsing_values :
    parseMetric "" = 0 ∧ parseMetric "abc" = 0 ∧ parseMetric "1,234" = 1234 ∧
    parseMetric "12.5%" = 12.5 ∧
    jsNum "" = 0 ∧ jsNum "abc" = 0 ∧ jsNum "12.5%" = 12.5 ∧ jsNum "1,234" = 1 ∧
    getValue wrComma GoalPath.energy = 1000 ∧ getSystemShare wrComma = 1 := by
  refine ⟨?_, ?_, ?_, ?_, ?_, ?_, ?_, ?_, ?_, ?_⟩ <;>
    norm_num +decide [parseMetric, stripCommas, jsTrim, jsWs, getValue, getSystemShare,
      removeFirstPercent, wrComma, jsNum, jsParseFloat, parseSign, parseDigits,
      parseExponent, toNat_d1, toNat_d2, toNat_d3, toNat_d4, toNat_d5]

end Netellus
